import Mathlib

/-
Verification of the texlab language-server core (`src/server.rs`) against its
natural-language specification.  The server module is embedded shallowly:
pure handler logic is translated to Lean functions, the mutable server state
(workspace, build-engine position table, viewport) is threaded explicitly, and
effects (responses, notifications, spawned jobs) are returned as values.
Collaborator code that lives outside the provided sources (workspace store,
line index, URI normalisation, serde decoding, external tools) is modelled
from the specification; each such definition says so in its doc comment.
-/

namespace TexLab

/-- LSP position: zero-based line and character (from `lsp_types::Position`). -/
structure Position where
  line : Nat
  character : Nat
deriving Repr, DecidableEq

/-- LSP range, a pair of positions (from `lsp_types::Range`; `end` is a Lean
keyword, renamed `endPos`). -/
structure Range where
  start : Position
  endPos : Position
deriving Repr, DecidableEq

/-- One content change of a `didChange` notification
(`lsp_types::TextDocumentContentChangeEvent`): an optional replaced range and
the replacement text. -/
structure TextDocumentContentChangeEvent where
  range : Option Range
  text : String
deriving Repr, DecidableEq

/-- Document language tags, from the spec's data model
({LaTeX-source, BibTeX-source, build-log, auxiliary}); the source enum is
`DocumentLanguage`. -/
inductive DocumentLanguage where
  | Latex
  | Bibtex
  | BuildLog
  | Auxiliary
deriving Repr, DecidableEq

/-- Modelled from the spec: a Document carries a (normalized) URI, its full
text, a language tag, and the derived list of raw inclusion references
(the parsed syntax tree itself is a collaborator and is not modelled). -/
structure Document where
  uri : String
  text : String
  language : DocumentLanguage
  includes : List String := []
deriving Repr, DecidableEq

/-- Modelled from the spec: the recognized configuration options with their
defaults (`diagnosticsDelay` defaults to 300 ms; forward-search executable and
arguments are optional). -/
structure Options where
  diagnosticsDelay : Nat := 300
  buildOnSave : Bool := false
  forwardSearchExecutable : Option String := none
  forwardSearchArgs : Option (List String) := none
  chktexOnOpenAndSave : Bool := false
  chktexOnEdit : Bool := false
deriving Repr, DecidableEq

/-- Modelled from the spec: the workspace environment record; only the pieces
the verified handlers consult are kept (effective options and the client
capability for pulling configuration). -/
structure Environment where
  options : Options := {}
  hasPullConfigurationSupport : Bool := false
deriving Repr, DecidableEq

/-- Modelled from the spec: a Workspace maps URIs to Documents, carries an
environment record and a viewport set of URIs the editor has shown. -/
structure Workspace where
  documents : List (String × Document) := []
  viewport : List String := []
  environment : Environment := {}
deriving Repr, DecidableEq

/-- `Workspace::get`: the current Document stored under a URI, if any.
Modelled from the spec's operation table. -/
def Workspace.get (w : Workspace) (uri : String) : Option Document :=
  (w.documents.find? (fun p => p.1 = uri)).map (·.2)

/-- `Workspace::open`: inserts or replaces the Document with the given URI
(parsing never fails, so the operation always succeeds).  Modelled from the
spec's operation table. -/
def Workspace.openDocument (w : Workspace) (uri text : String)
    (language : DocumentLanguage) : Workspace :=
  { w with documents :=
      (uri, { uri := uri, text := text, language := language }) ::
        w.documents.filter (fun p => p.1 ≠ uri) }

/-- `Workspace::close`: removes the URI from the viewport; the Document itself
remains stored.  Modelled from the spec's operation table. -/
def Workspace.closeDocument (w : Workspace) (uri : String) : Workspace :=
  { w with viewport := w.viewport.filter (fun u => u ≠ uri) }

/-- Modelled from the spec: `normalize_uri` lowercases the URI scheme
(Windows drive-letter canonicalisation is not modelled). -/
def normalize_uri (uri : String) : String :=
  let cs := uri.toList
  String.mk ((cs.takeWhile (fun c => c ≠ ':')).map Char.toLower ++
    cs.dropWhile (fun c => c ≠ ':'))

/-- One breadth-first expansion step of the inclusion closure: keep the
current URIs and add every included URI that resolves in the workspace. -/
def Workspace.expandOnce (w : Workspace) (uris : List String) : List String :=
  (uris ++ ((uris.filterMap w.get).flatMap Document.includes).filter
      (fun u => (w.get u).isSome)).dedup

/-- Modelled from the spec: `Workspace::slice` returns a snapshot view holding
the target document together with its transitive inclusion closure (cycle-safe
breadth-first traversal); when the target URI is not in the workspace the
slice holds no documents. -/
def Workspace.slice (w : Workspace) (uri : String) : Workspace :=
  let start := if (w.get uri).isSome then [uri] else []
  let uris := (w.expandOnce)^[w.documents.length] start
  { w with documents := w.documents.filter (fun p => uris.contains p.1) }

/-- `FeatureRequest { params, workspace, uri }` from the source: the params,
the workspace slice rooted at the target URI, and the URI itself. -/
structure FeatureRequest (P : Type) where
  params : P
  workspace : Workspace
  uri : String

/-- `Server::feature_request` / `ServerFork::feature_request`: pairs the
params with the slice of the workspace rooted at the URI. -/
def feature_request {P : Type} (w : Workspace) (uri : String) (params : P) :
    FeatureRequest P :=
  { params := params, workspace := w.slice uri, uri := uri }

/-- A JSON-RPC response as the server emits it: either `Response::new_ok` or
`Response::new_err` (from `lsp_server`). -/
inductive Response (R : Type) where
  | ok (id : Nat) (result : R)
  | err (id : Nat) (code : Int) (message : String)
deriving Repr, DecidableEq

/-- `lsp_server::ErrorCode::InvalidRequest as i32` (JSON-RPC standard code). -/
def invalidRequestCode : Int := -32600

/-- `Server::handle_feature_request`: build the feature request from a slice
of the workspace; if the slice holds no documents answer
`InvalidRequest`/"unknown document", otherwise run the handler and answer its
result.  (The source runs this on the worker pool; the job body is embedded
directly.) -/
def handle_feature_request {P R : Type} (w : Workspace) (id : Nat)
    (params : P) (uri : String) (handler : FeatureRequest P → R) :
    Response R :=
  let request := feature_request w uri params
  if request.workspace.documents.isEmpty then
    Response.err id invalidRequestCode "unknown document"
  else
    Response.ok id (handler request)

/- Lemmas about the slice used by the feature-request claims. -/

theorem expandOnce_nil (w : Workspace) : w.expandOnce [] = [] := by
  simp [Workspace.expandOnce]

theorem expandOnce_iterate_nil (w : Workspace) (n : Nat) :
    (w.expandOnce)^[n] [] = [] := by
  induction n with
  | zero => rfl
  | succ n ih => rw [Function.iterate_succ_apply, expandOnce_nil, ih]

/-- If the target URI is absent from the workspace, its slice is empty. -/
theorem slice_empty_of_not_present (w : Workspace) (uri : String)
    (h : w.get uri = none) : (w.slice uri).documents = [] := by
  simp [Workspace.slice, h, expandOnce_iterate_nil]

theorem mem_expandOnce_of_mem (w : Workspace) (uris : List String)
    (u : String) (h : u ∈ uris) : u ∈ w.expandOnce uris := by
  unfold Workspace.expandOnce
  rw [List.mem_dedup]
  exact List.mem_append_left _ h

theorem mem_expandOnce_iterate_of_mem (w : Workspace) (n : Nat)
    (uris : List String) (u : String) (h : u ∈ uris) :
    u ∈ (w.expandOnce)^[n] uris := by
  induction n generalizing uris with
  | zero => exact h
  | succ n ih =>
    rw [Function.iterate_succ_apply]
    exact ih _ (mem_expandOnce_of_mem w uris u h)

/-- If the target URI is present in the workspace, its slice is nonempty. -/
theorem slice_nonempty_of_present (w : Workspace) (uri : String)
    (d : Document) (h : w.get uri = some d) :
    (w.slice uri).documents ≠ [] := by
  unfold Workspace.slice
  simp only [h, Option.isSome_some, if_pos]
  intro hempty
  have hfind : (w.documents.find? (fun p => p.1 = uri)).isSome := by
    unfold Workspace.get at h
    cases hf : w.documents.find? (fun p => p.1 = uri) with
    | none => rw [hf] at h; simp at h
    | some p => simp [hf]
  obtain ⟨p, hp⟩ := Option.isSome_iff_exists.mp hfind
  have hmem : p ∈ w.documents := List.mem_of_find?_eq_some hp
  have hkey : p.1 = uri := by
    have := List.find?_some hp
    simpa using this
  have huri : uri ∈ (w.expandOnce)^[w.documents.length] [uri] :=
    mem_expandOnce_iterate_of_mem w _ [uri] uri (List.mem_singleton.mpr rfl)
  have : p ∈ w.documents.filter
      (fun q => ((w.expandOnce)^[w.documents.length] [uri]).contains q.1) := by
    rw [List.mem_filter]
    exact ⟨hmem, by simpa [hkey] using huri⟩
  rw [hempty] at this
  exact absurd this (List.not_mem_nil p)

/-- The slice keeps the environment record of the workspace it was taken from. -/
theorem slice_environment (w : Workspace) (uri : String) :
    (w.slice uri).environment = w.environment := rfl

/-- Modelled from the spec: `DocumentLanguage::by_language_id` maps the
client-provided language id to a language tag; ids other than the LaTeX and
BibTeX ones are unknown. -/
def DocumentLanguage.by_language_id : String → Option DocumentLanguage
  | "latex" => some DocumentLanguage.Latex
  | "tex" => some DocumentLanguage.Latex
  | "bibtex" => some DocumentLanguage.Bibtex
  | "bib" => some DocumentLanguage.Bibtex
  | _ => none

/-- The extension of a path or URI: the characters after the last dot, or ""
when there is no dot. -/
def fileExtension (uri : String) : String :=
  let cs := uri.toList
  if cs.contains '.' then String.mk ((cs.reverse.takeWhile (fun c => c ≠ '.')).reverse)
  else ""

/-- Modelled from the spec: language inference from a file extension —
`.log`, `.blg` map to build-log; `.bib` to BibTeX-source; `.aux`, `.fls`,
`.fdb_latexmk` to auxiliary; `.tex` and kin to LaTeX-source. -/
def DocumentLanguage.by_extension : String → Option DocumentLanguage
  | "tex" => some DocumentLanguage.Latex
  | "sty" => some DocumentLanguage.Latex
  | "cls" => some DocumentLanguage.Latex
  | "bib" => some DocumentLanguage.Bibtex
  | "log" => some DocumentLanguage.BuildLog
  | "blg" => some DocumentLanguage.BuildLog
  | "aux" => some DocumentLanguage.Auxiliary
  | "fls" => some DocumentLanguage.Auxiliary
  | "fdb_latexmk" => some DocumentLanguage.Auxiliary
  | _ => none

/-- The language-inference rule exactly as claim C7 words it (client language
id first, otherwise the file extension, defaulting to LaTeX-source); written
for comparison with what `did_open` actually does. -/
def claimInferredLanguage (uri langId : String) : DocumentLanguage :=
  ((DocumentLanguage.by_language_id langId).orElse
    (fun _ => DocumentLanguage.by_extension (fileExtension uri))).getD
    DocumentLanguage.Latex

/-- The server's mutable state threaded through the notification handlers:
the workspace and the build engine's `positions_by_uri` table. -/
structure ServerState where
  workspace : Workspace := {}
  buildEnginePositionsByUri : List (String × Position) := []
deriving Repr, DecidableEq

/-- `DashMap::insert` on the build engine's position table: the new binding
replaces any previous binding of the same URI. -/
def insertPositionByUri (t : List (String × Position)) (uri : String)
    (pos : Position) : List (String × Position) :=
  (uri, pos) :: t.filter (fun p => p.1 ≠ uri)

/-- Lookup in the build engine's position table. -/
def lookupPositionByUri (t : List (String × Position)) (uri : String) :
    Option Position :=
  (t.find? (fun p => p.1 = uri)).map (·.2)

/-- `Server::did_open`: normalize the URI, infer the language from the
client-provided language id with `DocumentLanguage::Latex` as the fallback,
store the document, and add the URI to the viewport.  (The optional ChkTeX
run spawned afterwards is a diagnostics side effect outside this model.) -/
def did_open (s : ServerState) (uri langId text : String) : ServerState :=
  let nuri := normalize_uri uri
  let language := (DocumentLanguage.by_language_id langId).getD
    DocumentLanguage.Latex
  let w := s.workspace.openDocument nuri text language
  { s with workspace :=
      { w with viewport := nuri :: w.viewport.filter (fun u => u ≠ nuri) } }

/-- Modelled from the spec: the line index maps a protocol line/column
position to an offset in the text — the total length of the first `line`
lines with their newline terminators, plus the column
(`LineIndex::offset_lsp_range` endpoint conversion). -/
def offsetOfPosition (text : String) (p : Position) : Nat :=
  ((text.splitOn "\n").take p.line).foldl
    (fun acc l => acc + l.length + 1) 0 + p.character

/-- `String::replace_range`: splice the replacement into the offset range. -/
def replaceRange (text : String) (lo hi : Nat) (repl : String) : String :=
  String.mk (text.toList.take lo ++ repl.toList ++ text.toList.drop hi)

/-- `apply_document_edit` from the source: fold the content changes over the
text in order; a change with a range replaces the offset range computed from
the line index of the *current* text, a change without a range replaces the
whole text. -/
def apply_document_edit (oldText : String)
    (changes : List TextDocumentContentChangeEvent) : String :=
  changes.foldl (fun t c =>
    match c.range with
    | some r =>
        replaceRange t (offsetOfPosition t r.start) (offsetOfPosition t r.endPos)
          c.text
    | none => c.text) oldText

/-- The first line on which the old and new text differ (zero when they agree
line by line); `Server::did_change` stores it in the build engine's position
table.  The Rust `lines()` iterator is modelled as splitting on newline. -/
def firstDifferingLine (oldText newText : String) : Nat :=
  (((oldText.splitOn "\n").zip (newText.splitOn "\n")).findIdx
    (fun p => p.1 ≠ p.2))

/-- `Server::did_change`: normalize the URI; when the document is known,
apply the content changes to its current text, reopen it under the same
language, re-add it to the viewport and record the first differing line in
the build engine's position table.  In the source a change for an unknown URI
falls back to loading the file from disk; filesystem access is outside the
model, so that branch leaves the state unchanged. -/
def did_change (s : ServerState) (uri : String)
    (changes : List TextDocumentContentChangeEvent) : ServerState :=
  match s.workspace.get (normalize_uri uri) with
  | some old =>
      let nuri := normalize_uri uri
      let text := apply_document_edit old.text changes
      let w := s.workspace.openDocument nuri text old.language
      let w := { w with viewport := nuri :: w.viewport.filter (fun u => u ≠ nuri) }
      { s with
        workspace := w,
        buildEnginePositionsByUri :=
          insertPositionByUri s.buildEnginePositionsByUri nuri
            { line := firstDifferingLine old.text text, character := 0 } }
  | none => s

/-- `Server::did_close`: normalize the URI and close it in the workspace
(which only removes it from the viewport; the document stays stored). -/
def did_close (s : ServerState) (uri : String) : ServerState :=
  { s with workspace := s.workspace.closeDocument (normalize_uri uri) }

/-- One text-synchronisation operation targeting a fixed document. -/
inductive DocumentOp where
  | openOp (langId text : String)
  | changeOp (changes : List TextDocumentContentChangeEvent)
  | closeOp

/-- Apply one operation to the server state via the corresponding handler. -/
def applyDocumentOp (s : ServerState) (uri : String) : DocumentOp → ServerState
  | DocumentOp.openOp langId text => did_open s uri langId text
  | DocumentOp.changeOp cs => did_change s uri cs
  | DocumentOp.closeOp => did_close s uri

/-- The text the specification predicts after a sequence of operations,
starting from text `t`: an open installs its full text, a change applies its
content changes in order, a close leaves the text alone. -/
def specStoredText (t : String) : List DocumentOp → String
  | [] => t
  | DocumentOp.openOp _ text :: ops => specStoredText text ops
  | DocumentOp.changeOp cs :: ops => specStoredText (apply_document_edit t cs) ops
  | DocumentOp.closeOp :: ops => specStoredText t ops

theorem get_openDocument_self (w : Workspace) (uri text : String)
    (lang : DocumentLanguage) :
    (w.openDocument uri text lang).get uri =
      some { uri := uri, text := text, language := lang } := by
  simp [Workspace.get, Workspace.openDocument]

theorem did_open_get (s : ServerState) (uri langId text : String) :
    (did_open s uri langId text).workspace.get (normalize_uri uri) =
      some { uri := normalize_uri uri, text := text,
             language := (DocumentLanguage.by_language_id langId).getD
               DocumentLanguage.Latex } := by
  unfold did_open
  exact get_openDocument_self _ _ _ _

theorem did_change_get (s : ServerState) (uri : String)
    (changes : List TextDocumentContentChangeEvent) (old : Document)
    (h : s.workspace.get (normalize_uri uri) = some old) :
    (did_change s uri changes).workspace.get (normalize_uri uri) =
      some { uri := normalize_uri uri,
             text := apply_document_edit old.text changes,
             language := old.language } := by
  unfold did_change
  rw [h]
  exact get_openDocument_self _ _ _ _

theorem did_close_get (s : ServerState) (uri u : String) :
    (did_close s uri).workspace.get u = s.workspace.get u := rfl

/-- Invariant behind claim C3: if the stored text under the (normalized)
target URI is `t`, then after any further operation sequence it is the text
the specification predicts from `t`. -/
theorem stored_text_invariant (uri : String) (ops : List DocumentOp) :
    ∀ (s : ServerState) (t : String),
      (s.workspace.get (normalize_uri uri)).map Document.text = some t →
      (((ops.foldl (fun s op => applyDocumentOp s uri op) s).workspace.get
          (normalize_uri uri)).map Document.text) =
        some (specStoredText t ops) := by
  induction ops with
  | nil => intro s t h; simpa [specStoredText] using h
  | cons op ops ih =>
    intro s t h
    cases op with
    | openOp langId text =>
      simp only [List.foldl_cons, applyDocumentOp, specStoredText]
      exact ih _ _ (by rw [did_open_get]; rfl)
    | changeOp cs =>
      obtain ⟨old, hold, htext⟩ : ∃ old,
          s.workspace.get (normalize_uri uri) = some old ∧ old.text = t := by
        cases hg : s.workspace.get (normalize_uri uri) with
        | none => rw [hg] at h; simp at h
        | some d =>
          rw [hg] at h
          exact ⟨d, rfl, by simpa using h⟩
      simp only [List.foldl_cons, applyDocumentOp, specStoredText]
      refine ih _ _ ?_
      rw [did_change_get s uri cs old hold, htext]
      rfl
    | closeOp =>
      simp only [List.foldl_cons, applyDocumentOp, specStoredText]
      exact ih _ _ (by rw [did_close_get]; exact h)

/-- Parameters of a `textDocument/completion` request (the pieces the server
consults: the target URI and the cursor position inside
`text_document_position`). -/
structure CompletionParams where
  uri : String
  position : Position
deriving Repr, DecidableEq

/-- Parameters of a `textDocument/hover` request (target URI and cursor
position inside `text_document_position_params`). -/
structure HoverParams where
  uri : String
  position : Position
deriving Repr, DecidableEq

/-- The observable steps a request handler performs on the session thread, in
order: writing the build engine's position table and handing the feature
request to the worker pool. -/
inductive DispatchEvent where
  | insertBuildPosition (uri : String) (pos : Position)
  | dispatchToPool (uri : String)
deriving Repr, DecidableEq

/-- `Server::completion`: normalize the URI, insert the cursor position into
the build engine's `positions_by_uri` table under that URI, then hand the
request to `handle_feature_request` (which runs `complete` on the pool).
Returns the updated state and the ordered trace of those two steps. -/
def Server.completion (s : ServerState) (p : CompletionParams) :
    ServerState × List DispatchEvent :=
  let nuri := normalize_uri p.uri
  ({ s with buildEnginePositionsByUri :=
      insertPositionByUri s.buildEnginePositionsByUri nuri p.position },
   [DispatchEvent.insertBuildPosition nuri p.position,
    DispatchEvent.dispatchToPool nuri])

/-- `Server::hover`: normalize the URI, insert the cursor position into the
build engine's `positions_by_uri` table under that URI, then hand the request
to `handle_feature_request` (which runs `find_hover` on the pool). -/
def Server.hover (s : ServerState) (p : HoverParams) :
    ServerState × List DispatchEvent :=
  let nuri := normalize_uri p.uri
  ({ s with buildEnginePositionsByUri :=
      insertPositionByUri s.buildEnginePositionsByUri nuri p.position },
   [DispatchEvent.insertBuildPosition nuri p.position,
    DispatchEvent.dispatchToPool nuri])

/-- An inlay hint as the resolve handler sees it (`lsp_types::InlayHint`,
restricted to representative fields; the handler never inspects them). -/
structure InlayHint where
  position : Position
  label : String
deriving Repr, DecidableEq

/-- `Server::inlay_hint_resolve`: sends `Response::new_ok(id, hint)` with the
hint exactly as received. -/
def Server.inlay_hint_resolve (id : Nat) (hint : InlayHint) :
    Response InlayHint :=
  Response.ok id hint

/-- Parameters of a `textDocument/semanticTokens/range` request. -/
structure SemanticTokensRangeParams where
  uri : String
  range : Range
deriving Repr, DecidableEq

/-- `Server::semantic_tokens_range`: ignores its request id and params and
returns `Ok(())` without sending anything on the connection; the value is the
list of wire messages the handler emits. -/
def Server.semantic_tokens_range (_id : Nat)
    (_params : SemanticTokensRangeParams) : List (Response Unit) :=
  []

/-- What the request dispatcher does with a `semanticTokens/range` request:
the method is bound to `Server::semantic_tokens_range` in `process_messages`,
so `handlerMatched` is true (the default method-not-found reply of
`RequestDispatcher::default` is not produced) and `sent` is whatever the
handler emitted. -/
structure DispatchOutcome where
  handlerMatched : Bool
  sent : List (Response Unit)
deriving Repr, DecidableEq

/-- The dispatcher step for `textDocument/semanticTokens/range` (from the
`.on::<SemanticTokensRangeRequest, _>` registration in `process_messages`). -/
def dispatch_semantic_tokens_range (id : Nat)
    (params : SemanticTokensRangeParams) : DispatchOutcome :=
  { handlerMatched := true, sent := Server.semantic_tokens_range id params }

/-- A protocol message from the client as the loop sees it
(`lsp_server::Message`).  `isShutdown` records whether
`Connection::handle_shutdown` recognizes the request as the `shutdown`
request; that predicate lives in the `lsp_server` collaborator and is
modelled from the spec as a per-request flag. -/
inductive LspMessage where
  | request (isShutdown : Bool) (id : Nat) (method : String)
  | notification (method : String)
  | responseMsg (id : Nat)
deriving Repr, DecidableEq

/-- Whether the shutdown predicate holds for a message (only requests can be
the shutdown request). -/
def LspMessage.isShutdownRequest : LspMessage → Bool
  | LspMessage.request b _ _ => b
  | _ => false

/-- `Server::process_messages`, restricted to the protocol channel (the
internal-event channel only carries distro/options/file events and never
terminates the loop): each iteration takes the next inbound message; a
request is first tested with the shutdown predicate and, if it holds, the
loop returns at once (the shutdown request is answered inside the
collaborator's predicate, not dispatched to a handler); every other message
is dispatched.  The result is the list of messages dispatched to handlers,
in order, paired with whether the loop returned (a finite input that never
satisfies the predicate leaves the loop blocked on the channel). -/
def process_messages : List LspMessage → List LspMessage × Bool
  | [] => ([], false)
  | m :: rest =>
    if m.isShutdownRequest then ([], true)
    else
      let r := process_messages rest
      (m :: r.1, r.2)

/-- What an orderly run of the server produces: the dispatched messages, the
fact that the worker pool was joined, and the process exit status. -/
structure RunOutcome where
  dispatched : List LspMessage
  poolJoined : Bool
  exitStatus : Nat
deriving Repr, DecidableEq

/-- `Server::run` after the initialization handshake: process messages, then
join the worker pool and return `Ok`.  Modelled from the spec for the part
outside the sources: a cleanly returned `run` makes the process exit with
status 0.  `none` means the loop never returned (no shutdown arrived). -/
def Server.run (msgs : List LspMessage) : Option RunOutcome :=
  let r := process_messages msgs
  if r.2 then some { dispatched := r.1, poolJoined := true, exitStatus := 0 }
  else none

/-- Client-visible severity of a `window/showMessage`
(`lsp_types::MessageType`). -/
inductive MessageType where
  | ERROR
  | WARNING
  | INFO
  | LOG
deriving Repr, DecidableEq

/-- A notification the server pushes to the client. -/
inductive ClientNotification where
  | showMessage (typ : MessageType) (message : String)
deriving Repr, DecidableEq

/-- A JSON value (`serde_json::Value`), restricted to the shapes the
configuration and resolve claims exercise. -/
inductive Json where
  | null
  | num (n : Int)
  | str (s : String)
  | jbool (b : Bool)
  | obj (fields : List (String × Json))

/-- Modelled from the spec: serde deserialization of `Option<Options>` from
the pushed configuration value.  `null` decodes to `None`; an object decodes
to `Some` of the options read from the recognized keys (restricted here to
`diagnosticsDelay`; unrecognized keys are ignored, a wrong-typed value
fails); any other JSON shape fails to deserialize, giving `none` overall. -/
def decodeOptionOptions : Json → Option (Option Options)
  | Json.null => some none
  | Json.obj fields =>
    (match fields.lookup "diagnosticsDelay" with
     | some (Json.num n) => if n < 0 then none else some n.toNat
     | some _ => none
     | none => some 300).map (fun delay => some { diagnosticsDelay := delay })
  | _ => none

/-- `ServerFork::parse_options`: try to deserialize `Option<Options>`; on
failure send a warning `window/showMessage` to the client and continue with
`None`; either way the returned options are the decoded ones or the defaults
(`unwrap_or_default`).  The serde error detail appended to the message in the
source is elided from the model. -/
def parse_options (value : Json) : List ClientNotification × Options :=
  match decodeOptionOptions value with
  | some options => ([], options.getD {})
  | none =>
    ([ClientNotification.showMessage MessageType.WARNING
        "The texlab configuration is invalid; using the default settings instead."],
     ({} : Options))

/-- The effects `did_change_configuration` can cause beyond the state change. -/
inductive ConfigEffect where
  | spawnPullConfig
  | notify (n : ClientNotification)
  | reparseAll
deriving Repr, DecidableEq

/-- `Server::did_change_configuration`: when the client supports pulling the
configuration, spawn a pull and ignore the pushed settings; otherwise parse
the pushed settings with `parse_options`, install the result as the effective
options and reparse every document (`reparse_all` reopens each document with
its unchanged text, so the stored documents are unchanged in the model and
the reparse is recorded as an effect). -/
def did_change_configuration (s : ServerState) (settings : Json) :
    ServerState × List ConfigEffect :=
  if s.workspace.environment.hasPullConfigurationSupport then
    (s, [ConfigEffect.spawnPullConfig])
  else
    let r := parse_options settings
    let w := { s.workspace with
      environment := { s.workspace.environment with options := r.2 } }
    ({ s with workspace := w },
     r.1.map ConfigEffect.notify ++ [ConfigEffect.reparseAll])

/-- Forward-search result status (`ForwardSearchStatus` in the source). -/
inductive ForwardSearchStatus where
  | SUCCESS
  | ERROR
  | FAILURE
  | UNCONFIGURED
deriving Repr, DecidableEq

/-- Result of a `textDocument/forwardSearch` request. -/
structure ForwardSearchResult where
  status : ForwardSearchStatus
deriving Repr, DecidableEq

/-- Modelled from the spec: `ForwardSearch::execute` invokes the configured
previewer tool; when the invocation fails the call returns an error (mapped
to `none` here), otherwise it reports `SUCCESS`.  Whether the external
invocation succeeds is passed in as `invocationOk`. -/
def ForwardSearch.execute (invocationOk : Bool) : Option ForwardSearchResult :=
  if invocationOk then some { status := ForwardSearchStatus.SUCCESS } else none

/-- `Server::forward_search`: normalize the URI and run the handler through
`handle_feature_request`.  The handler reads the forward-search options from
the slice's environment; only when both the executable and the argument list
are configured (`Option::zip`) is the tool run, with `unwrap_or` turning a
failed invocation into `ERROR`; otherwise the result is `UNCONFIGURED`. -/
def Server.forward_search (w : Workspace) (id : Nat) (uri : String)
    (pos : Position) (invocationOk : Bool) : Response ForwardSearchResult :=
  handle_feature_request w id pos (normalize_uri uri) (fun req =>
    match req.workspace.environment.options.forwardSearchExecutable,
        req.workspace.environment.options.forwardSearchArgs with
    | some _, some _ =>
        (ForwardSearch.execute invocationOk).getD
          { status := ForwardSearchStatus.ERROR }
    | _, _ => { status := ForwardSearchStatus.UNCONFIGURED })

/-- Modelled from the spec/usage in `completion_resolve`: the payload stored
in a completion item's `data` field (an externally tagged serde enum; the
unit variants beyond `Package` and `Class` are collapsed into `Other`). -/
inductive CompletionItemData where
  | Package
  | Class
  | Citation (uri : String) (key : String)
  | Other
deriving Repr, DecidableEq

/-- A completion item as the resolve handler sees it: label, the optional
`data` payload still in JSON form, and optional documentation. -/
structure CompletionItem where
  label : String
  data : Option Json
  documentation : Option String := none

/-- Modelled from the spec: serde deserialization of `CompletionItemData`
from a JSON value — a known tag string for the unit variants, an object with
a `Citation` tag carrying `uri` and `key` for the struct variant; anything
else fails. -/
def parseCompletionItemData : Json → Option CompletionItemData
  | Json.str "Package" => some CompletionItemData.Package
  | Json.str "Class" => some CompletionItemData.Class
  | Json.str "Command" => some CompletionItemData.Other
  | Json.str "Environment" => some CompletionItemData.Other
  | Json.obj [("Citation", Json.obj fields)] =>
    (match fields.lookup "uri", fields.lookup "key" with
     | some (Json.str uri), some (Json.str key) =>
        some (CompletionItemData.Citation uri key)
     | _, _ => none)
  | _ => none

/-- How a job handed to the worker pool ends: with a value, or by panicking
on the worker thread. -/
inductive WorkerOutcome (α : Type) where
  | completed (value : α)
  | panicked (message : String)
deriving Repr, DecidableEq

/-- Whether the worker job ran to completion. -/
def WorkerOutcome.isCompleted {α : Type} : WorkerOutcome α → Bool
  | WorkerOutcome.completed _ => true
  | WorkerOutcome.panicked _ => false

/-- The job body of `Server::completion_resolve`:
`item.data.clone().unwrap()` panics when `data` is absent, and
`serde_json::from_value(..).unwrap()` panics when the value does not
deserialize into `CompletionItemData`.  Otherwise the documentation is filled
in — from the static component database for packages and classes
(`componentDocumentation` oracle on the label), or by finding and rendering
the cited entry for citations (`citationDocumentation` oracle, which receives
the current documentation so a failed lookup can leave it unchanged, as the
`if let` in the source does) — and an ok response carrying the item is sent. -/
def completion_resolve_job (componentDocumentation : String → Option String)
    (citationDocumentation : String → String → Option String → Option String)
    (id : Nat) (item : CompletionItem) :
    WorkerOutcome (Response CompletionItem) :=
  match item.data with
  | none => WorkerOutcome.panicked "called unwrap on a None value"
  | some value =>
    match parseCompletionItemData value with
    | none => WorkerOutcome.panicked "called unwrap on an Err value"
    | some data =>
      let item :=
        match data with
        | CompletionItemData.Package =>
            { item with documentation := componentDocumentation item.label }
        | CompletionItemData.Class =>
            { item with documentation := componentDocumentation item.label }
        | CompletionItemData.Citation uri key =>
            { item with documentation :=
                citationDocumentation uri key item.documentation }
        | CompletionItemData.Other => item
      WorkerOutcome.completed (Response.ok id item)

/-- A job submitted to the worker pool by `Server::spawn`. -/
structure SpawnedTask (α : Type) where
  runsOnWorkerPool : Bool
  outcome : WorkerOutcome α
deriving Repr, DecidableEq

/-- `Server::completion_resolve`: submits the resolve job to the worker pool
(`self.spawn`), so any panic inside it happens on a worker thread rather than
producing an error response. -/
def Server.completion_resolve (componentDocumentation : String → Option String)
    (citationDocumentation : String → String → Option String → Option String)
    (id : Nat) (item : CompletionItem) :
    SpawnedTask (Response CompletionItem) :=
  { runsOnWorkerPool := true,
    outcome := completion_resolve_job componentDocumentation
      citationDocumentation id item }

/-- `process_messages` on a stream that begins with non-shutdown messages and
then carries the shutdown request: the prefix is dispatched in order, nothing
at or after the shutdown request is, and the loop returns. -/
theorem process_messages_stops_at_shutdown (id : Nat) (m : String)
    (post : List LspMessage) :
    ∀ pre : List LspMessage, (∀ msg ∈ pre, msg.isShutdownRequest = false) →
      process_messages (pre ++ LspMessage.request true id m :: post) =
        (pre, true) := by
  intro pre
  induction pre with
  | nil =>
    intro _
    simp [process_messages, LspMessage.isShutdownRequest]
  | cons a l ih =>
    intro h
    have ha : a.isShutdownRequest = false := h a (List.mem_cons_self a l)
    have ihh := ih (fun msg hm => h msg (List.mem_cons_of_mem a hm))
    simp [process_messages, ha, ihh]

/-- Claim C1: a feature request whose target URI has no document in the
workspace is answered with a JSON-RPC error with code `InvalidRequest` and
message "unknown document", and no handler result is sent for that request
id. -/
theorem claim_unknown_document_invalid_request {P R : Type} (w : Workspace)
    (id : Nat) (params : P) (uri : String) (handler : FeatureRequest P → R)
    (h : w.get uri = none) :
    handle_feature_request w id params uri handler =
      Response.err id invalidRequestCode "unknown document" ∧
    ∀ r : R, handle_feature_request w id params uri handler ≠
      Response.ok id r := by
  have hempty := slice_empty_of_not_present w uri h
  have hmain : handle_feature_request w id params uri handler =
      Response.err id invalidRequestCode "unknown document" := by
    unfold handle_feature_request feature_request
    simp [hempty]
  refine ⟨hmain, fun r hok => ?_⟩
  rw [hmain] at hok
  exact Response.noConfusion hok

/-- Witness for claim C1: hover-style request 1 for
`file:///never-opened.tex` against an empty workspace. -/
theorem claim_unknown_document_invalid_request_witness :
    (Workspace.get {} "file:///never-opened.tex" = none) ∧
    @handle_feature_request Position Nat {} 1
        { line := 0, character := 4 } "file:///never-opened.tex" (fun _ => 0) =
      Response.err 1 invalidRequestCode "unknown document" :=
  ⟨rfl, (@claim_unknown_document_invalid_request Position Nat {} 1
      { line := 0, character := 4 } "file:///never-opened.tex"
      (fun _ => 0) rfl).1⟩

/-- Claim C2, counterexample: pull-configuration unsupported, effective
options with `diagnosticsDelay = 200`, pushed settings `42`.  The warning is
sent, but it is false that the previous options remain in effect and that no
reparse is triggered: the options are reset to the defaults and the documents
are reparsed. -/
theorem claim_config_invalid_counterexample :
    (ConfigEffect.notify (ClientNotification.showMessage MessageType.WARNING
        "The texlab configuration is invalid; using the default settings instead.") ∈
      (did_change_configuration
        { workspace := { environment := { options := { diagnosticsDelay := 200 } } } }
        (Json.num 42)).2) ∧
    ¬ ((did_change_configuration
          { workspace := { environment := { options := { diagnosticsDelay := 200 } } } }
          (Json.num 42)).1.workspace.environment.options =
        ({ diagnosticsDelay := 200 } : Options) ∧
       ConfigEffect.reparseAll ∉
        (did_change_configuration
          { workspace := { environment := { options := { diagnosticsDelay := 200 } } } }
          (Json.num 42)).2) := by
  decide

/-- Claim C2 (amended): when the client cannot pull the configuration and the
pushed settings fail to deserialize, the server sends a warning
`window/showMessage`, the effective options are replaced by the defaults, and
a reparse of the workspace documents is triggered. -/
theorem claim_config_invalid_warns_resets_reparses (s : ServerState) (v : Json)
    (hpush : s.workspace.environment.hasPullConfigurationSupport = false)
    (hbad : decodeOptionOptions v = none) :
    (ConfigEffect.notify (ClientNotification.showMessage MessageType.WARNING
        "The texlab configuration is invalid; using the default settings instead.") ∈
      (did_change_configuration s v).2) ∧
    (did_change_configuration s v).1.workspace.environment.options = {} ∧
    ConfigEffect.reparseAll ∈ (did_change_configuration s v).2 := by
  simp [did_change_configuration, hpush, parse_options, hbad]

/-- Witness for the amended claim C2 at the concrete state with
`diagnosticsDelay = 200` and pushed settings `42`. -/
theorem claim_config_invalid_warns_resets_reparses_witness :
    (({ workspace := { environment := { options := { diagnosticsDelay := 200 } } } } :
        ServerState).workspace.environment.hasPullConfigurationSupport = false) ∧
    (decodeOptionOptions (Json.num 42) = none) ∧
    (did_change_configuration
        { workspace := { environment := { options := { diagnosticsDelay := 200 } } } }
        (Json.num 42)).1.workspace.environment.options = {} :=
  ⟨rfl, rfl, (claim_config_invalid_warns_resets_reparses
      { workspace := { environment := { options := { diagnosticsDelay := 200 } } } }
      (Json.num 42) rfl rfl).2.1⟩

/-- Claim C3: after a document is opened and any further sequence of
open/change/close operations is applied to it, its stored text equals the
result of applying the operations' content changes in order — a change with a
range replaces the offset range computed from the protocol line/column range
against the current text, a change without a range replaces the whole
text. -/
theorem claim_stored_text_tracks_edits (s : ServerState)
    (uri langId text : String) (ops : List DocumentOp) :
    (((ops.foldl (fun s op => applyDocumentOp s uri op)
        (did_open s uri langId text)).workspace.get (normalize_uri uri)).map
      Document.text) = some (specStoredText text ops) :=
  stored_text_invariant uri ops _ text (by rw [did_open_get]; rfl)

/-- Claim C4: the loop tests each request against the shutdown predicate
first; when it holds the loop exits, so no message after the shutdown request
is dispatched, the worker pool is joined, and the orderly handshake ends the
process with exit status 0. -/
theorem claim_shutdown_stops_loop (pre post : List LspMessage) (id : Nat)
    (m : String) (h : ∀ msg ∈ pre, msg.isShutdownRequest = false) :
    Server.run (pre ++ LspMessage.request true id m :: post) =
      some { dispatched := pre, poolJoined := true, exitStatus := 0 } := by
  have hpm := process_messages_stops_at_shutdown id m post pre h
  simp [Server.run, hpm]

/-- Witness for claim C4: an `initialized`-style notification, the shutdown
request, then an `exit` notification and a further request; only the first
notification is dispatched and the run ends with status 0. -/
theorem claim_shutdown_stops_loop_witness :
    (∀ msg ∈ [LspMessage.notification "textDocument/didOpen"],
        msg.isShutdownRequest = false) ∧
    Server.run [LspMessage.notification "textDocument/didOpen",
        LspMessage.request true 5 "shutdown",
        LspMessage.notification "exit",
        LspMessage.request false 6 "textDocument/hover"] =
      some { dispatched := [LspMessage.notification "textDocument/didOpen"],
             poolJoined := true, exitStatus := 0 } := by
  refine ⟨by decide, ?_⟩
  have h := claim_shutdown_stops_loop
    [LspMessage.notification "textDocument/didOpen"]
    [LspMessage.notification "exit",
     LspMessage.request false 6 "textDocument/hover"]
    5 "shutdown" (by decide)
  simpa using h

/-- Claim C5: on a known document, forward search answers `UNCONFIGURED` when
executable or argument list is missing from the configuration, `ERROR` when
the tool invocation fails, and `SUCCESS` otherwise. -/
theorem claim_forward_search_status (w : Workspace) (id : Nat) (uri : String)
    (pos : Position) (invocationOk : Bool) (d : Document)
    (h : w.get (normalize_uri uri) = some d) :
    Server.forward_search w id uri pos invocationOk =
      Response.ok id { status :=
        match w.environment.options.forwardSearchExecutable,
            w.environment.options.forwardSearchArgs with
        | some _, some _ =>
          if invocationOk then ForwardSearchStatus.SUCCESS
          else ForwardSearchStatus.ERROR
        | _, _ => ForwardSearchStatus.UNCONFIGURED } := by
  have hne := slice_nonempty_of_present w (normalize_uri uri) d h
  have hem : (w.slice (normalize_uri uri)).documents.isEmpty = false := by
    cases hcase : (w.slice (normalize_uri uri)).documents with
    | nil => exact absurd hcase hne
    | cons a l => rfl
  unfold Server.forward_search handle_feature_request feature_request
  simp only [hem, Bool.false_eq_true, if_false]
  cases hE : w.environment.options.forwardSearchExecutable <;>
    cases hA : w.environment.options.forwardSearchArgs <;>
      cases invocationOk <;>
        simp [slice_environment, hE, hA, ForwardSearch.execute]

/-- Witness for claim C5: a workspace holding `file:///tmp/a.tex` with the
default (unconfigured) options answers `UNCONFIGURED`. -/
theorem claim_forward_search_status_witness :
    (Workspace.get
        { documents := [("file:///tmp/a.tex",
            { uri := "file:///tmp/a.tex", text := "", language := DocumentLanguage.Latex })] }
        (normalize_uri "file:///tmp/a.tex") =
      some { uri := "file:///tmp/a.tex", text := "",
             language := DocumentLanguage.Latex }) ∧
    Server.forward_search
        { documents := [("file:///tmp/a.tex",
            { uri := "file:///tmp/a.tex", text := "", language := DocumentLanguage.Latex })] }
        3 "file:///tmp/a.tex" { line := 0, character := 0 } true =
      Response.ok 3 { status := ForwardSearchStatus.UNCONFIGURED } := by
  refine ⟨by decide, ?_⟩
  exact claim_forward_search_status
    { documents := [("file:///tmp/a.tex",
        { uri := "file:///tmp/a.tex", text := "", language := DocumentLanguage.Latex })] }
    3 "file:///tmp/a.tex" { line := 0, character := 0 } true
    { uri := "file:///tmp/a.tex", text := "", language := DocumentLanguage.Latex }
    (by decide)

/-- Claim C6, counterexample: for the `semanticTokens/range` request with id
7, the bound handler emits no message at all — in particular no (empty)
result response for id 7 is sent, contradicting the claim that every such
request receives an empty result as its response. -/
theorem claim_semantic_tokens_counterexample :
    ((dispatch_semantic_tokens_range 7
        { uri := "file:///tmp/a.tex",
          range := { start := { line := 0, character := 0 },
                     endPos := { line := 0, character := 1 } } }).sent = []) ∧
    ¬ ∃ r ∈ (dispatch_semantic_tokens_range 7
        { uri := "file:///tmp/a.tex",
          range := { start := { line := 0, character := 0 },
                     endPos := { line := 0, character := 1 } } }).sent,
        r = Response.ok 7 () := by
  refine ⟨rfl, ?_⟩
  rintro ⟨r, hr, -⟩
  simp [dispatch_semantic_tokens_range, Server.semantic_tokens_range] at hr

/-- Claim C6 (amended): every `semanticTokens/range` request is consumed by a
registered no-op handler — the dispatcher does not produce its
method-not-found default for it — but no response at all is sent for the
request. -/
theorem claim_semantic_tokens_swallowed (id : Nat)
    (params : SemanticTokensRangeParams) :
    (dispatch_semantic_tokens_range id params).handlerMatched = true ∧
    (dispatch_semantic_tokens_range id params).sent = [] :=
  ⟨rfl, rfl⟩

/-- Claim C7, counterexample: opening `file:///tmp/refs.bib` under the
unknown language id "plaintext" stores the document as LaTeX-source, whereas
the claimed extension fallback would infer BibTeX-source. -/
theorem claim_did_open_language_counterexample :
    (((did_open {} "file:///tmp/refs.bib" "plaintext" "hello").workspace.get
        "file:///tmp/refs.bib").map Document.language =
      some DocumentLanguage.Latex) ∧
    claimInferredLanguage "file:///tmp/refs.bib" "plaintext" =
      DocumentLanguage.Bibtex ∧
    ((did_open {} "file:///tmp/refs.bib" "plaintext" "hello").workspace.get
        "file:///tmp/refs.bib").map Document.language ≠
      some (claimInferredLanguage "file:///tmp/refs.bib" "plaintext") := by
  refine ⟨by decide, by decide, by decide⟩

/-- Claim C7 (amended): on didOpen the language is determined from the
client-provided language id alone — the file extension is never consulted —
and an unknown language id defaults to LaTeX-source. -/
theorem claim_did_open_language_from_id (s : ServerState)
    (uri langId text : String) :
    ((did_open s uri langId text).workspace.get (normalize_uri uri)).map
        Document.language =
      some ((DocumentLanguage.by_language_id langId).getD
        DocumentLanguage.Latex) := by
  rw [did_open_get]
  rfl

/-- Claim C8: completion and hover write the request's cursor position into
the build engine's per-URI position table under the normalized URI, and they
do so before the feature request is dispatched to the worker pool. -/
theorem claim_cursor_position_recorded (s : ServerState)
    (pc : CompletionParams) (ph : HoverParams) :
    (lookupPositionByUri (Server.completion s pc).1.buildEnginePositionsByUri
        (normalize_uri pc.uri) = some pc.position) ∧
    (Server.completion s pc).2 =
      [DispatchEvent.insertBuildPosition (normalize_uri pc.uri) pc.position,
       DispatchEvent.dispatchToPool (normalize_uri pc.uri)] ∧
    (lookupPositionByUri (Server.hover s ph).1.buildEnginePositionsByUri
        (normalize_uri ph.uri) = some ph.position) ∧
    (Server.hover s ph).2 =
      [DispatchEvent.insertBuildPosition (normalize_uri ph.uri) ph.position,
       DispatchEvent.dispatchToPool (normalize_uri ph.uri)] := by
  refine ⟨?_, rfl, ?_, rfl⟩ <;>
    simp [Server.completion, Server.hover, lookupPositionByUri,
      insertPositionByUri, List.find?]

/-- Claim C9: the inlayHint/resolve handler is the identity — it answers with
exactly the hint it received. -/
theorem claim_inlay_hint_resolve_identity (id : Nat) (hint : InlayHint) :
    Server.inlay_hint_resolve id hint = Response.ok id hint := rfl

/-- Claim C10: the completionItem/resolve job completes exactly when the
item's `data` field is present and deserializes into `CompletionItemData`;
on an item without `data` (and likewise on undeserializable `data`) the
job panics on the worker thread instead of producing a structured error
response. -/
theorem claim_completion_resolve_unwrap_panics :
    (∀ (cd : String → Option String)
        (cit : String → String → Option String → Option String)
        (id : Nat) (item : CompletionItem),
      (Server.completion_resolve cd cit id item).outcome.isCompleted =
        (item.data.bind parseCompletionItemData).isSome) ∧
    (Server.completion_resolve (fun _ => none) (fun _ _ d => d) 1
        { label := "amsmath", data := none }).outcome =
      WorkerOutcome.panicked "called unwrap on a None value" ∧
    (Server.completion_resolve (fun _ => none) (fun _ _ d => d) 1
        { label := "amsmath", data := some (Json.num 5) }).outcome =
      WorkerOutcome.panicked "called unwrap on an Err value" ∧
    (Server.completion_resolve (fun _ => none) (fun _ _ d => d) 1
        { label := "amsmath", data := none }).runsOnWorkerPool = true := by
  refine ⟨?_, rfl, rfl, rfl⟩
  intro cd cit id item
  cases hdata : item.data with
  | none =>
    simp [Server.completion_resolve, completion_resolve_job, hdata,
      WorkerOutcome.isCompleted]
  | some v =>
    cases hparse : parseCompletionItemData v with
    | none =>
      simp [Server.completion_resolve, completion_resolve_job, hdata, hparse,
        WorkerOutcome.isCompleted]
    | some data =>
      cases data <;>
        simp [Server.completion_resolve, completion_resolve_job, hdata, hparse,
          WorkerOutcome.isCompleted]

end TexLab
